import Mathlib

set_option maxRecDepth 4000

/-!
A verification development for the TunesReloaded repository.

The model is a shallow embedding of:
- the sync pipeline `saveDatabase` (src/unnamed/part_003) together with the
  queue/delete-list state it manipulates (`appState.pendingUploads`,
  `appState.pendingFileDeletes`); all I/O (content copy, transcode, database
  write, database copy, physical file deletion) is abstracted by a success
  oracle `SyncEnv`, since the state transitions of the pipeline depend on the
  outcomes of those calls only through success/failure;
- the C database engine `ipod_manager.c` (src/unnamed/part_007): tracks,
  playlists, membership, and every mutating entry point;
- the JS wrappers `createTrackOps` (src/modules/trackOps.js),
  `createWasmApi.wasmAddTrack` (src/unnamed/part_001) and
  `createPaths` (src/unnamed/part_005).

Modelling conventions:
- C track pointers are modelled by a `tid : Nat` identity drawn from a
  monotone counter (`Itdb.nextTid`); malloc guarantees live pointers are
  distinct, which the well-formedness predicate `WF` records as `Nodup`.
- Playlist member lists hold `Option Nat`: `none` models a NULL track
  pointer in the GList, `some tid` a pointer to the track with that identity.
- Strings crossing the JS/wasm boundary are produced by `stringToUTF8` and
  are therefore valid UTF-8, on which `sanitize_utf8_string` is the
  identity; string fields are modelled as Lean `String`s directly.
- Wall-clock fields (`time_added`, `time_modified`) are outside the model.
-/

namespace TunesReloaded

/-! ### Sync pipeline state (src/unnamed/part_003, src/modules/fsSync.js) -/

/-- Status of a queued upload, `q.status` in `appState.pendingUploads`. -/
inductive UStatus where
  | queued
  | staged
deriving DecidableEq

/-- One entry of `appState.pendingUploads`. -/
structure UploadItem where
  name : String
  status : UStatus
deriving DecidableEq

/-- The pipeline-visible mutable state: the upload queue and the deferred
physical-deletion list (`appState.pendingFileDeletes`). -/
structure SyncState where
  pendingUploads : List UploadItem
  pendingFileDeletes : List String
deriving DecidableEq

/-- Success oracle for the fallible calls made by `saveDatabase`:
`stageOk k` is the outcome of staging the k-th not-yet-staged item
(metadata, optional FLAC transcode, content copy, createTrack/finalize);
`writeDbOk` the outcome of `ipod_write_db`; `copyDbOk` of
`fsSync.syncDbToIpod` (its `res.ok`); `deleteOk p` of
`fsSync.deleteFileFromIpodRelativePath` on path `p`. -/
structure SyncEnv where
  connected : Bool
  stageOk : Nat → Bool
  writeDbOk : Bool
  copyDbOk : Bool
  deleteOk : String → Bool

/-- Terminal outcome of one `saveDatabase` run. -/
inductive SyncOutcome where
  | notConnected
  | failedWrite
  | failedCopy
  | done
deriving DecidableEq

/-- The staging loop of `saveDatabase` (part_003 lines 154-222): it iterates
over `toStage = queue.filter(q => q.status !== 'staged')` and sets
`item.status = 'staged'` exactly on the items whose upload succeeded.
`k` counts the not-yet-staged items seen so far (the oracle index). -/
def stagePass (ok : Nat → Bool) : List UploadItem → Nat → List UploadItem
  | [], _ => []
  | it :: rest, k =>
    if it.status = UStatus.staged then
      it :: stagePass ok rest k
    else if ok k then
      { it with status := UStatus.staged } :: stagePass ok rest (k + 1)
    else
      it :: stagePass ok rest (k + 1)

/-- The filter defining which queue items the staging phase processes
(part_003 line 156). -/
def toStage (q : List UploadItem) : List UploadItem :=
  q.filter (fun it => !(it.status = UStatus.staged))

/-- Result of one `saveDatabase` run: final state, terminal outcome, and the
pending-delete paths whose physical removal succeeded during ApplyingDeletes. -/
structure SyncResult where
  state : SyncState
  outcome : SyncOutcome
  deleted : List String
deriving DecidableEq

/-- The sync session `saveDatabase` (src/unnamed/part_003 lines 139-303):
1. staging pass over the non-`staged` queue items;
2. `ipod_write_db`; failure is fatal, queue and delete list retained;
3. copy iTunesDB (+ optional iTunesSD) to the device; failure is fatal,
   queue and delete list retained;
4. attempt each pending physical deletion; individual failures are logged
   and skipped;
5. set `appState.pendingUploads = []` and `appState.pendingFileDeletes = []`
   unconditionally on reaching this point. -/
def saveDatabase (env : SyncEnv) (s : SyncState) : SyncResult :=
  if env.connected = false then
    { state := s, outcome := SyncOutcome.notConnected, deleted := [] }
  else
    let uploads := stagePass env.stageOk s.pendingUploads 0
    if env.writeDbOk = false then
      { state := { pendingUploads := uploads, pendingFileDeletes := s.pendingFileDeletes },
        outcome := SyncOutcome.failedWrite, deleted := [] }
    else if env.copyDbOk = false then
      { state := { pendingUploads := uploads, pendingFileDeletes := s.pendingFileDeletes },
        outcome := SyncOutcome.failedCopy, deleted := [] }
    else
      { state := { pendingUploads := [], pendingFileDeletes := [] },
        outcome := SyncOutcome.done,
        deleted := s.pendingFileDeletes.filter (fun p => env.deleteOk p) }

/-! ### Database engine data model (src/unnamed/part_007, `ipod_manager.c`) -/

/-- An `Itdb_Track`. `tid` models the track's pointer identity. The fields
mirror the ones `ipod_manager.c` reads or writes; `ipodPath` is `none` for
a NULL `ipod_path` and the stored path is in iPod (colon) format. -/
structure Track where
  tid : Nat
  title : String
  artist : String
  album : String
  genre : String
  filetype : String
  trackNr : Int
  cdNr : Int
  year : Int
  tracklen : Int
  bitrate : Int
  samplerate : Int
  size : Int
  transferred : Bool
  ipodPath : Option String
  filetypeMarker : Nat
deriving DecidableEq

/-- An `Itdb_Playlist`. `members` is the GList of track pointers: `none`
models a NULL entry, `some tid` a pointer to the track with identity `tid`
(possibly dangling). `isMaster` models `itdb_playlist_is_mpl`. -/
structure Playlist where
  name : String
  isMaster : Bool
  isPodcast : Bool
  isSpl : Bool
  members : List (Option Nat)
deriving DecidableEq

/-- The global `Itdb_iTunesDB` state `g_itdb` together with the
`g_last_added_track` slot (by identity) and the pointer-freshness counter. -/
structure Itdb where
  tracks : List Track
  playlists : List Playlist
  nextTid : Nat
  lastAdded : Option Nat
deriving DecidableEq

/-- `g_list_nth_data(l, (guint)i)` where `i` is a C `int`: a negative index
casts to a huge unsigned value and yields NULL; an index past the end yields
NULL. -/
def glistNthData {α : Type} (l : List α) (i : Int) : Option α :=
  if 0 ≤ i then l[i.toNat]? else none

/-- Track identities currently in the engine's track collection. -/
def tidsOf (db : Itdb) : List Nat := db.tracks.map Track.tid

/-- Modelled from the spec: libgpod's `itdb_playlist_contains_track` —
`g_list_find` of the track pointer in the playlist's member list. -/
def playlistContainsTid (pl : Playlist) (tid : Nat) : Prop :=
  (some tid) ∈ pl.members

instance (pl : Playlist) (tid : Nat) : Decidable (playlistContainsTid pl tid) :=
  inferInstanceAs (Decidable ((some tid) ∈ pl.members))

/-- Modelled from the spec: libgpod's `itdb_track_remove` —
`g_list_remove(itdb->tracks, track)` drops the first (and, pointers being
unique, only) node holding that track pointer, then frees the track. -/
def removeTrackByTid (t : Nat) : List Track → List Track
  | [] => []
  | tr :: rest => if tr.tid = t then rest else tr :: removeTrackByTid t rest

/-- Modelled from the spec: libgpod's `itdb_playlist_remove_track` —
`g_list_remove(pl->members, track)` drops the first node holding the track
pointer. -/
def playlistEraseTid (pl : Playlist) (tid : Nat) : Playlist :=
  { pl with members := pl.members.erase (some tid) }

/-- Modelled from the spec: `g_list_index(itdb->tracks, track)` — position of
the first node holding the track pointer, or -1 when absent. -/
def glistIndexTid (l : List Track) (t : Nat) : Int :=
  let i := l.findIdx (fun tr => tr.tid == t)
  if i = l.length then -1 else (i : Int)

/-! ### Engine operations (src/unnamed/part_007) -/

/-- The arguments of `ipod_add_track` after the JS/wasm string marshalling. -/
structure AddTrackArgs where
  title : String
  artist : String
  album : String
  genre : String
  trackNr : Int
  cdNr : Int
  year : Int
  tracklenMs : Int
  bitrate : Int
  samplerate : Int
  sizeBytes : Int
  filetype : String
deriving DecidableEq

/-- The track record built by `ipod_add_track` (lines 707-746): metadata
fields set from the arguments (`sanitize_utf8_string` is the identity on the
valid UTF-8 the JS boundary delivers), `transferred = FALSE`, no `ipod_path`
yet. -/
def mkTrack (a : AddTrackArgs) (tid : Nat) : Track :=
  { tid := tid
    title := a.title
    artist := a.artist
    album := a.album
    genre := a.genre
    filetype := a.filetype
    trackNr := a.trackNr
    cdNr := a.cdNr
    year := a.year
    tracklen := a.tracklenMs
    bitrate := a.bitrate
    samplerate := a.samplerate
    size := a.sizeBytes
    transferred := false
    ipodPath := none
    filetypeMarker := 0 }

/-- Modelled from the spec: libgpod's `itdb_playlist_mpl` — the master
playlist is guaranteed to sit at the head of the playlist list; the function
returns NULL when the head is not flagged as master. Combined here with the
conditional `itdb_playlist_add_track(mpl, track, -1)` of `ipod_add_track`
lines 752-755: append the new track to the master playlist only when
`itdb_playlist_contains_track` does not already find it. -/
def addToMplIfAbsent (tid : Nat) (db : Itdb) : Itdb :=
  match db.playlists with
  | [] => db
  | mpl :: rest =>
    if mpl.isMaster then
      if playlistContainsTid mpl tid then db
      else { db with playlists := { mpl with members := mpl.members ++ [some tid] } :: rest }
    else db

/-- `ipod_add_track` (lines 688-769): build the track, append it to the
track list (`itdb_track_add` at position -1), add it to the master playlist
if absent, remember it in `g_last_added_track`, and return its position in
the track list (`g_list_index`). -/
def ipod_add_track (db : Itdb) (a : AddTrackArgs) : Itdb × Int :=
  let tid := db.nextTid
  let tr := mkTrack a tid
  let db1 : Itdb := { db with tracks := db.tracks ++ [tr], nextTid := db.nextTid + 1 }
  let db2 := addToMplIfAbsent tid db1
  let db3 := { db2 with lastAdded := some tid }
  (db3, glistIndexTid db3.tracks tid)

/-- The playlist sweep of `ipod_remove_track` (lines 1016-1023): every
playlist that contains the track has it removed via
`itdb_playlist_remove_track`. -/
def removeFromAllPlaylists (tid : Nat) (pls : List Playlist) : List Playlist :=
  pls.map (fun pl => if playlistContainsTid pl tid then playlistEraseTid pl tid else pl)

/-- `ipod_remove_track` (lines 998-1038): NULL-check the index, remove the
track from every playlist's members first, then from the track list
(`itdb_track_remove`), and clear `g_last_added_track` if it pointed to this
track. Returns 0 on success, -1 when the index is out of range (state
untouched). -/
def ipod_remove_track (db : Itdb) (i : Int) : Itdb × Int :=
  match glistNthData db.tracks i with
  | none => (db, -1)
  | some tr =>
    let pls := removeFromAllPlaylists tr.tid db.playlists
    let tracks := removeTrackByTid tr.tid db.tracks
    let last := if db.lastAdded = some tr.tid then none else db.lastAdded
    ({ tracks := tracks, playlists := pls, nextTid := db.nextTid, lastAdded := last }, 0)

/-- The nullable string arguments of `ipod_update_track`. -/
structure UpdateTrackArgs where
  title : Option String
  artist : Option String
  album : Option String
  genre : Option String
  trackNr : Int
  year : Int
  rating : Int
deriving DecidableEq

/-- `ipod_update_track` (lines 1044-1078): non-NULL string fields replace the
stored ones (sanitized), non-negative numeric fields replace the stored ones.
The model does not carry `rating`/`time_modified` on `Track`; the fields it
carries are updated exactly as the C does. -/
def ipod_update_track (db : Itdb) (t : Int) (u : UpdateTrackArgs) : Itdb × Int :=
  match glistNthData db.tracks t with
  | none => (db, -1)
  | some tr =>
    let tr1 := { tr with
      title := u.title.getD tr.title
      artist := u.artist.getD tr.artist
      album := u.album.getD tr.album
      genre := u.genre.getD tr.genre
      trackNr := if 0 ≤ u.trackNr then u.trackNr else tr.trackNr
      year := if 0 ≤ u.year then u.year else tr.year }
    ({ db with tracks := db.tracks.set t.toNat tr1 }, 0)

/-- `ipod_track_set_path` (lines 941-961): replace `ipod_path`, set
`transferred = TRUE`. -/
def ipod_track_set_path (db : Itdb) (t : Int) (path : String) : Itdb × Int :=
  match glistNthData db.tracks t with
  | none => (db, -1)
  | some tr =>
    let tr1 := { tr with ipodPath := some path, transferred := true }
    ({ db with tracks := db.tracks.set t.toNat tr1 }, 0)

/-- Modelled from the spec: libgpod's `itdb_filename_fs2ipod` — the device
path format uses the reserved colon separator in place of the hierarchical
separator; the conversion is purely syntactic (every `/` becomes `:`). -/
def itdb_filename_fs2ipod (s : String) : String :=
  String.mk (s.data.map (fun c => if c = '/' then ':' else c))

/-- Modelled from the spec: libgpod's `itdb_filename_ipod2fs` — the inverse
direction: every `:` becomes `/`. -/
def itdb_filename_ipod2fs (s : String) : String :=
  String.mk (s.data.map (fun c => if c = ':' then '/' else c))

/-- `strrchr(dest, '.')` followed by the `if (!suffix) suffix = "."` fallback
of `ipod_finalize_last_track_no_stat`: the substring from the last dot. -/
def lastDotSuffix (s : String) : String :=
  let tail := s.data.reverse.takeWhile (fun c => !(c = '.'))
  if tail.length = s.data.length then "." else String.mk ('.' :: tail.reverse)

/-- The 4-byte `filetype_marker` loop of `ipod_finalize_last_track_no_stat`
(lines 920-929): bytes 1..4 of the dot-suffix, upper-cased, space-padded. -/
def filetypeMarkerOf (dest : String) : Nat :=
  let suffix := (lastDotSuffix dest).data
  let byteAt := fun (i : Nat) =>
    if i < suffix.length then ((suffix.getD i ' ').toUpper.toNat) % 256 else 32
  (((byteAt 1) * 256 + byteAt 2) * 256 + byteAt 3) * 256 + byteAt 4

/-- The C substring `&dest[n]`. -/
def cSubstrFrom (s : String) (n : Nat) : String := String.mk (s.data.drop n)

/-- The first track rewrite of `ipod_finalize_last_track_no_stat` (lines
885-896) applied to the one track whose pointer matches
`g_last_added_track`: mark transferred, take the size when positive, free
the old `ipod_path`. -/
def finalizeMark (tid : Nat) (sizeBytes : Int) (tr : Track) : Track :=
  if tr.tid = tid then
    { tr with transferred := true
              size := if 0 < sizeBytes then sizeBytes else tr.size
              ipodPath := none }
  else tr

/-- The second track rewrite of `ipod_finalize_last_track_no_stat` (lines
903-929): store the derived device path and the 4-byte filetype marker. -/
def finalizeSetPath (tid : Nat) (newPath : String) (marker : Nat) (tr : Track) : Track :=
  if tr.tid = tid then { tr with ipodPath := some newPath, filetypeMarker := marker }
  else tr

/-- `ipod_finalize_last_track_no_stat(dest, size)` (lines 860-933) with the
mountpoint `g_mountpoint` passed explicitly: fails when no track was added
(`g_last_added_track` NULL), when the destination is empty or not under the
mountpoint; otherwise marks the last-added track transferred, stores the
size when positive, derives `ipod_path` (mountpoint stripped, leading
separator ensured, converted to colon format) and the 4-byte filetype
marker. The degenerate `dest = mountpoint` case returns -1 after having
already marked the track transferred and cleared its path, exactly as the C
does. -/
def ipod_finalize_last_track_no_stat (mp : String) (db : Itdb) (dest : String)
    (sizeBytes : Int) : Itdb × Int :=
  match db.lastAdded with
  | none => (db, -1)
  | some tid =>
    if dest = "" ∨ mp = "" then (db, -1)
    else if dest.data.length < mp.data.length ∨ ¬ (mp.data.isPrefixOf dest.data) then (db, -1)
    else
      let db1 := { db with tracks := db.tracks.map (finalizeMark tid sizeBytes) }
      if dest.data.length ≤ mp.data.length then (db1, -1)
      else
        let restPath := cSubstrFrom dest mp.data.length
        let fsPath := if restPath.data.head? = some '/' then restPath else "/" ++ restPath
        let newPath := itdb_filename_fs2ipod fsPath
        let marker := filetypeMarkerOf dest
        ({ db1 with tracks := db1.tracks.map (finalizeSetPath tid newPath marker) }, 0)

/-- `ipod_create_playlist` (lines 1237-1269): reject an empty name, append a
fresh non-master playlist, return its position (the pointer scan finds the
just-appended node). -/
def ipod_create_playlist (db : Itdb) (name : String) : Itdb × Int :=
  if name = "" then (db, -1)
  else
    let pl : Playlist :=
      { name := name, isMaster := false, isPodcast := false, isSpl := false, members := [] }
    ({ db with playlists := db.playlists ++ [pl] }, (db.playlists.length : Int))

/-- `ipod_delete_playlist` (lines 1275-1300): NULL-check the index, refuse
the master playlist, otherwise `itdb_playlist_remove` drops that node. -/
def ipod_delete_playlist (db : Itdb) (p : Int) : Itdb × Int :=
  match glistNthData db.playlists p with
  | none => (db, -1)
  | some pl =>
    if pl.isMaster then (db, -1)
    else ({ db with playlists := db.playlists.eraseIdx p.toNat }, 0)

/-- `ipod_rename_playlist` (lines 1306-1328): NULL-check the index, reject an
empty name, replace the name. -/
def ipod_rename_playlist (db : Itdb) (p : Int) (newName : String) : Itdb × Int :=
  match glistNthData db.playlists p with
  | none => (db, -1)
  | some pl =>
    if newName = "" then (db, -1)
    else ({ db with playlists := db.playlists.set p.toNat ({ pl with name := newName }) }, 0)

/-- `ipod_playlist_add_track` (lines 1335-1362): NULL-check both indices;
when the playlist already contains the track, log and return 0 without
touching anything ("Not an error"); otherwise append the track pointer to
the members. -/
def ipod_playlist_add_track (db : Itdb) (p t : Int) : Itdb × Int :=
  match glistNthData db.playlists p with
  | none => (db, -1)
  | some pl =>
    match glistNthData db.tracks t with
    | none => (db, -1)
    | some tr =>
      if playlistContainsTid pl tr.tid then (db, 0)
      else
        let pl1 := { pl with members := pl.members ++ [some tr.tid] }
        ({ db with playlists := db.playlists.set p.toNat pl1 }, 0)

/-- `ipod_playlist_remove_track` (lines 1369-1396): NULL-check both indices,
fail when the playlist does not contain the track, otherwise remove the
first member node holding the pointer. -/
def ipod_playlist_remove_track (db : Itdb) (p t : Int) : Itdb × Int :=
  match glistNthData db.playlists p with
  | none => (db, -1)
  | some pl =>
    match glistNthData db.tracks t with
    | none => (db, -1)
    | some tr =>
      if playlistContainsTid pl tr.tid then
        ({ db with playlists := db.playlists.set p.toNat (playlistEraseTid pl tr.tid) }, 0)
      else (db, -1)

/-! ### Pre-persist validation and `ipod_write_db` (part_007 lines 403-510) -/

/-- The member-validation test of `ipod_write_db` (lines 446-486): a member
node is kept only when its track pointer is non-NULL and the pointed-to
track is found in the database's track list. -/
def validMemberB (tids : List Nat) : Option Nat → Bool
  | none => false
  | some t => tids.contains t

/-- The pre-write pass of `ipod_write_db`: for every playlist, drop the
member nodes that are NULL or dangling (the two-pass collect-then-unlink in
the C nets out to this filter), and force `is_spl = FALSE` (lines 491-496).
UTF-8 sanitization of text fields is the identity on the model's strings. -/
def prepareForWrite (db : Itdb) : Itdb :=
  let tids := tidsOf db
  { db with playlists := db.playlists.map (fun pl =>
      { pl with members := pl.members.filter (validMemberB tids), isSpl := false }) }

/-- `ipod_write_db` (lines 403-510) with the outcome of the underlying
`itdb_write` abstracted by `writeOk`: the validation pass always runs to
completion and the write is attempted regardless of how many stale members
were dropped; 0 on success, -1 when `itdb_write` fails. (`persistentId`
assignment inside `itdb_write` is not modelled; no claim touches it.) -/
def ipod_write_db (writeOk : Bool) (db : Itdb) : Itdb × Int :=
  let db1 := prepareForWrite db
  if writeOk then (db1, 0) else (db1, -1)

/-! ### PathCodec (part_007 lines 1409-1437, src/unnamed/part_005) -/

/-- `ipod_path_to_ipod_format` (lines 1409-1419): `strdup` then
`itdb_filename_fs2ipod` in place. The spec's `toDeviceFormat`. -/
def ipod_path_to_ipod_format (fsPath : String) : String :=
  itdb_filename_fs2ipod fsPath

/-- `ipod_path_to_fs_format` (lines 1428-1437): `strdup` then
`itdb_filename_ipod2fs` in place. The spec's `toPortableFormat`. -/
def ipod_path_to_fs_format (ipodPath : String) : String :=
  itdb_filename_ipod2fs ipodPath

/-- `normalizeRelFsPath` (part_005): strip leading slashes. -/
def normalizeRelFsPath (s : String) : String :=
  String.mk (s.data.dropWhile (fun c => c = '/'))

/-- `toIpodDbPathFromRel` (part_005 lines 29-33): slash-prefix the
normalized relative path, then convert to colon format. -/
def toIpodDbPathFromRel (rel : String) : String :=
  ipod_path_to_ipod_format ("/" ++ normalizeRelFsPath rel)

/-- `toRelFsPathFromIpodDbPath` (part_005 lines 35-39): convert to slash
format, then keep the canonical relative form. -/
def toRelFsPathFromIpodDbPath (p : String) : String :=
  normalizeRelFsPath (ipod_path_to_fs_format p)

/-! ### JS track operations (src/modules/trackOps.js) -/

/-- The `ipod_path` field of `ipod_get_track_json(trackId)` as seen by JS:
a NULL path serialises as the empty string; the JSON escape of
`escape_json_string` composed with `JSON.parse` is the identity. An
out-of-range id yields NULL JSON, whose optional-chained `ipod_path` is
undefined — like the empty string, falsy. -/
def jsonIpodPath (db : Itdb) (trackId : Int) : String :=
  match glistNthData db.tracks trackId with
  | some tr => tr.ipodPath.getD ""
  | none => ""

/-- `deleteTrack(trackId)` (trackOps.js lines 10-29), the user confirmation
dialog aside: grab the device path before removal (indexes shift after
delete), call `ipod_remove_track`, and on success append the converted
relative path (when one exists) to `appState.pendingFileDeletes` so the
physical delete is deferred to the next sync. Returns the engine result. -/
def deleteTrack (db : Itdb) (dels : List String) (trackId : Int) :
    Itdb × List String × Int :=
  let ipodPath := jsonIpodPath db trackId
  let relFsPath : Option String :=
    if ipodPath = "" then none else some (toRelFsPathFromIpodDbPath ipodPath)
  match ipod_remove_track db trackId with
  | (db1, r) =>
    if r = 0 then
      (db1, (match relFsPath with | some p => dels ++ [p] | none => dels), 0)
    else (db1, dels, r)

/-- Outcome of a `createTrackOps` playlist mutation as observed by the user. -/
inductive TrackOpResult where
  | invalidIndex
  | masterGuard
  | ok
  | wasmError
deriving DecidableEq

/-- `addTrackToPlaylist(trackId, playlistIndex)` (trackOps.js lines 31-50).
`appState.playlists` caches `ipod_get_all_playlists_json`; with the cache
coherent, its length and `is_master` flags are those of the engine's
playlist list. An index out of bounds is rejected; a master playlist is
rejected with a warning before any engine call; otherwise the engine adds
the membership. -/
def addTrackToPlaylist (db : Itdb) (trackId : Int) (playlistIndex : Int) :
    Itdb × TrackOpResult :=
  if playlistIndex < 0 ∨ (db.playlists.length : Int) ≤ playlistIndex then
    (db, TrackOpResult.invalidIndex)
  else
    match glistNthData db.playlists playlistIndex with
    | none => (db, TrackOpResult.invalidIndex)
    | some pl =>
      if pl.isMaster then (db, TrackOpResult.masterGuard)
      else
        match ipod_playlist_add_track db playlistIndex trackId with
        | (db1, r) => (db1, if r = 0 then TrackOpResult.ok else TrackOpResult.wasmError)

/-- `removeTrackFromPlaylist(trackId)` (trackOps.js lines 52-74), with
`appState.currentPlaylistIndex` passed explicitly and the confirmation
dialog aside: same guards, then `ipod_playlist_remove_track`. -/
def removeTrackFromPlaylist (db : Itdb) (currentPlaylistIndex : Int) (trackId : Int) :
    Itdb × TrackOpResult :=
  if currentPlaylistIndex < 0 ∨ (db.playlists.length : Int) ≤ currentPlaylistIndex then
    (db, TrackOpResult.invalidIndex)
  else
    match glistNthData db.playlists currentPlaylistIndex with
    | none => (db, TrackOpResult.invalidIndex)
    | some pl =>
      if pl.isMaster then (db, TrackOpResult.masterGuard)
      else
        match ipod_playlist_remove_track db currentPlaylistIndex trackId with
        | (db1, r) => (db1, if r = 0 then TrackOpResult.ok else TrackOpResult.wasmError)

/-! ### `wasmAddTrack` numeric sanitization (src/unnamed/part_001 lines 104-140) -/

/-- A JavaScript number as far as `Number.isFinite` and ordering are
concerned: NaN, the two infinities, or a finite value (rationals cover
every float the metadata extractors produce). -/
inductive JNum where
  | nan
  | posInf
  | negInf
  | num (v : Rat)
deriving DecidableEq

/-- `Number.isFinite`. -/
def JNum.isFinite : JNum → Bool
  | JNum.num _ => true
  | _ => false

/-- The JS pattern `Number.isFinite(x) ? x : fallback`. -/
def JNum.finiteOr (x : JNum) (fallback : Rat) : Rat :=
  match x with
  | JNum.num v => v
  | _ => fallback

/-- The JS pattern `Number.isFinite(x) && x > 0 ? x : fallback` (comparison
with NaN is false, so the non-finite cases all take the fallback). -/
def JNum.finitePosOr (x : JNum) (fallback : Rat) : Rat :=
  match x with
  | JNum.num v => if 0 < v then v else fallback
  | _ => fallback

/-- The coercion a finite JS number undergoes when passed through
`Module.ccall` with a C `int` parameter: truncation toward zero, then
wrap-around into the signed 32-bit range (ToInt32). -/
def ratTruncToInt32 (v : Rat) : Int :=
  let t : Int := if 0 ≤ v then v.floor else -((-v).floor)
  let m := t % (2 : Int) ^ 32
  if m < (2 : Int) ^ 31 then m else m - (2 : Int) ^ 32

/-- The argument object of `wasmAddTrack`; absent JS fields arrive as
`undefined`, which behaves like `''` (strings) and like NaN (numbers)
through the `||` / `Number.isFinite` guards, so the model folds them in. -/
structure WasmTrackArgs where
  title : String
  artist : String
  album : String
  genre : String
  trackNr : JNum
  cdNr : JNum
  year : JNum
  durationMs : JNum
  bitrateKbps : JNum
  samplerateHz : JNum
  sizeBytes : JNum
  filetype : String

/-- The JS `a || b` idiom on strings: the empty string is falsy. -/
def strOrElse (s fallback : String) : String :=
  if s = "" then fallback else s

/-- The `safe*` argument sanitization of `wasmAddTrack` (part_001 lines
120-132): string fallbacks via `||`, numeric fallbacks via
`Number.isFinite` (duration/bitrate/samplerate additionally require a
positive value, substituting 180000 ms, 128 kbps, 44100 Hz), and the ccall
int coercion. -/
def wasmSafeArgs (a : WasmTrackArgs) : AddTrackArgs :=
  { title := a.title
    artist := strOrElse a.artist "Unknown Artist"
    album := strOrElse a.album "Unknown Album"
    genre := a.genre
    filetype := strOrElse a.filetype "MPEG audio file"
    trackNr := ratTruncToInt32 (a.trackNr.finiteOr 0)
    cdNr := ratTruncToInt32 (a.cdNr.finiteOr 0)
    year := ratTruncToInt32 (a.year.finiteOr 0)
    tracklenMs := ratTruncToInt32 (a.durationMs.finitePosOr 180000)
    bitrate := ratTruncToInt32 (a.bitrateKbps.finitePosOr 128)
    samplerate := ratTruncToInt32 (a.samplerateHz.finitePosOr 44100)
    sizeBytes := ratTruncToInt32 (a.sizeBytes.finitePosOr 0) }

/-- `wasmAddTrack` (part_001 lines 104-140): sanitize the fields, then
`ccall('ipod_add_track', ...)`. -/
def wasmAddTrack (db : Itdb) (a : WasmTrackArgs) : Itdb × Int :=
  ipod_add_track db (wasmSafeArgs a)

/-! ### Invariants and the mutating-operation alphabet -/

/-- Invariant I1: every playlist member is a non-NULL reference to a track
present in the engine's current track collection. -/
def I1 (db : Itdb) : Prop :=
  ∀ pl ∈ db.playlists, ∀ m ∈ pl.members, ∃ t ∈ tidsOf db, m = some t

/-- Well-formedness delivered by the C runtime: live track pointers are
pairwise distinct (`malloc`), the freshness counter dominates every live
identity, and no playlist's member list holds the same pointer twice (the
engine only appends a member after a negative containment check). -/
def WF (db : Itdb) : Prop :=
  (tidsOf db).Nodup ∧
  (∀ tr ∈ db.tracks, tr.tid < db.nextTid) ∧
  (∀ pl ∈ db.playlists, pl.members.Nodup)

/-- The mutating entry points of `ipod_manager.c`, as one alphabet. -/
inductive EngineOp where
  | addTrack (a : AddTrackArgs)
  | removeTrack (i : Int)
  | updateTrack (i : Int) (u : UpdateTrackArgs)
  | trackSetPath (i : Int) (p : String)
  | finalizeLastNoStat (mp : String) (dest : String) (size : Int)
  | createPlaylist (name : String)
  | deletePlaylist (i : Int)
  | renamePlaylist (i : Int) (name : String)
  | playlistAddTrack (p t : Int)
  | playlistRemoveTrack (p t : Int)

/-- The state transition of one mutating engine operation. -/
def applyOp (db : Itdb) : EngineOp → Itdb
  | EngineOp.addTrack a => (ipod_add_track db a).1
  | EngineOp.removeTrack i => (ipod_remove_track db i).1
  | EngineOp.updateTrack i u => (ipod_update_track db i u).1
  | EngineOp.trackSetPath i p => (ipod_track_set_path db i p).1
  | EngineOp.finalizeLastNoStat mp dest size =>
      (ipod_finalize_last_track_no_stat mp db dest size).1
  | EngineOp.createPlaylist name => (ipod_create_playlist db name).1
  | EngineOp.deletePlaylist i => (ipod_delete_playlist db i).1
  | EngineOp.renamePlaylist i name => (ipod_rename_playlist db i name).1
  | EngineOp.playlistAddTrack p t => (ipod_playlist_add_track db p t).1
  | EngineOp.playlistRemoveTrack p t => (ipod_playlist_remove_track db p t).1

/-! ### Pipeline lemmas -/

/-- The staging pass never changes the number of queue entries. -/
theorem stagePass_length (ok : Nat → Bool) :
    ∀ (q : List UploadItem) (k : Nat), (stagePass ok q k).length = q.length := by
  intro q
  induction q with
  | nil => intro k; rfl
  | cons it rest ih =>
    intro k
    simp only [stagePass]
    split
    · simp [ih]
    · split <;> simp [ih]

/-- The staging pass leaves every already-`staged` entry untouched at its
position. -/
theorem stagePass_preserves_staged (ok : Nat → Bool) :
    ∀ (q : List UploadItem) (k i : Nat),
      q[i]?.map UploadItem.status = some UStatus.staged →
      (stagePass ok q k)[i]? = q[i]? := by
  intro q
  induction q with
  | nil => intro k i h; simp at h
  | cons it rest ih =>
    intro k i h
    cases i with
    | zero =>
      have hst : it.status = UStatus.staged := by
        simpa using h
      simp [stagePass, hst]
    | succ n =>
      simp only [List.getElem?_cons_succ] at h ⊢
      simp only [stagePass]
      split
      · simpa using ih k n h
      · split <;> simpa using ih (k + 1) n h

/-- A queue in which nothing remains to stage passes through the staging
phase unchanged: the phase iterates only over `toStage`. -/
theorem stagePass_all_staged (ok : Nat → Bool) :
    ∀ (q : List UploadItem) (k : Nat), toStage q = [] → stagePass ok q k = q := by
  intro q
  induction q with
  | nil => intro k _; rfl
  | cons it rest ih =>
    intro k h
    rw [toStage, List.filter_cons] at h
    by_cases hst : it.status = UStatus.staged
    · rw [if_neg (by simp [hst])] at h
      have h2 : toStage rest = [] := h
      rw [stagePass, if_pos hst, ih k h2]
    · rw [if_pos (by simp [hst])] at h
      exact (List.cons_ne_nil _ _ h).elim

/-- Shape of a session that fails at the database write. -/
theorem saveDatabase_writeFail (env : SyncEnv) (s : SyncState)
    (hc : env.connected = true) (hw : env.writeDbOk = false) :
    saveDatabase env s =
      { state := { pendingUploads := stagePass env.stageOk s.pendingUploads 0,
                   pendingFileDeletes := s.pendingFileDeletes },
        outcome := SyncOutcome.failedWrite, deleted := [] } := by
  simp [saveDatabase, hc, hw]

/-- Shape of a session that fails at the database copy to the device. -/
theorem saveDatabase_copyFail (env : SyncEnv) (s : SyncState)
    (hc : env.connected = true) (hw : env.writeDbOk = true) (hcp : env.copyDbOk = false) :
    saveDatabase env s =
      { state := { pendingUploads := stagePass env.stageOk s.pendingUploads 0,
                   pendingFileDeletes := s.pendingFileDeletes },
        outcome := SyncOutcome.failedCopy, deleted := [] } := by
  simp [saveDatabase, hc, hw, hcp]

/-- Shape of a fully successful session. -/
theorem saveDatabase_success (env : SyncEnv) (s : SyncState)
    (hc : env.connected = true) (hw : env.writeDbOk = true) (hcp : env.copyDbOk = true) :
    saveDatabase env s =
      { state := { pendingUploads := [], pendingFileDeletes := [] },
        outcome := SyncOutcome.done,
        deleted := s.pendingFileDeletes.filter (fun p => env.deleteOk p) } := by
  simp [saveDatabase, hc, hw, hcp]

/-- Claim C1: if the WritingDatabase step (`ipod_write_db`) or the
CopyingToDevice step (`syncDbToIpod`) fails, the session ends with the
pending-delete list intact and the upload queue intact up to the statuses
promoted during this run's staging phase (entries already `staged` keep
their status at their position); the staging phase leaves an all-`staged`
queue untouched, so a retry re-processes only non-`staged` items; and the
queue and delete list are cleared exactly when both fatal steps succeed. -/
theorem C1_session_failure_preserves_queue (env : SyncEnv) (s : SyncState)
    (hc : env.connected = true) :
    ((saveDatabase env s).outcome ≠ SyncOutcome.done →
      (saveDatabase env s).state.pendingFileDeletes = s.pendingFileDeletes ∧
      (saveDatabase env s).state.pendingUploads = stagePass env.stageOk s.pendingUploads 0 ∧
      (saveDatabase env s).state.pendingUploads.length = s.pendingUploads.length ∧
      (∀ i : Nat, s.pendingUploads[i]?.map UploadItem.status = some UStatus.staged →
        (saveDatabase env s).state.pendingUploads[i]? = s.pendingUploads[i]?)) ∧
    (∀ (q : List UploadItem) (k : Nat), toStage q = [] → stagePass env.stageOk q k = q) ∧
    ((saveDatabase env s).outcome = SyncOutcome.done ↔
      env.writeDbOk = true ∧ env.copyDbOk = true) ∧
    ((saveDatabase env s).outcome = SyncOutcome.done →
      (saveDatabase env s).state.pendingUploads = [] ∧
      (saveDatabase env s).state.pendingFileDeletes = []) := by
  have hpres := stagePass_preserves_staged env.stageOk s.pendingUploads 0
  refine ⟨?_, fun q k h => stagePass_all_staged env.stageOk q k h, ?_, ?_⟩
  · intro hnd
    rcases hw : env.writeDbOk
    · rw [saveDatabase_writeFail env s hc hw]
      exact ⟨rfl, rfl, stagePass_length env.stageOk s.pendingUploads 0, hpres⟩
    · rcases hcp : env.copyDbOk
      · rw [saveDatabase_copyFail env s hc hw hcp]
        exact ⟨rfl, rfl, stagePass_length env.stageOk s.pendingUploads 0, hpres⟩
      · rw [saveDatabase_success env s hc hw hcp] at hnd
        exact absurd rfl hnd
  · rcases hw : env.writeDbOk
    · rw [saveDatabase_writeFail env s hc hw]
      simp [hw]
    · rcases hcp : env.copyDbOk
      · rw [saveDatabase_copyFail env s hc hw hcp]
        simp [hcp]
      · rw [saveDatabase_success env s hc hw hcp]
        simp [hw, hcp]
  · intro hdone
    rcases hw : env.writeDbOk
    · rw [saveDatabase_writeFail env s hc hw] at hdone
      exact absurd hdone (by simp)
    · rcases hcp : env.copyDbOk
      · rw [saveDatabase_copyFail env s hc hw hcp] at hdone
        exact absurd hdone (by simp)
      · rw [saveDatabase_success env s hc hw hcp]
        exact ⟨rfl, rfl⟩

/-- Witness for C1 at a concrete environment: the database write fails, the
delete list survives and a staged entry keeps its status. -/
theorem C1_session_failure_preserves_queue_witness :
    (saveDatabase
      { connected := true, stageOk := fun _ => true, writeDbOk := false, copyDbOk := true,
        deleteOk := fun _ => true }
      { pendingUploads := [{ name := "a.mp3", status := UStatus.staged }],
        pendingFileDeletes := ["iPod_Control/Music/F00/x.mp3"] }).state.pendingFileDeletes =
      ["iPod_Control/Music/F00/x.mp3"] :=
  ((C1_session_failure_preserves_queue
      { connected := true, stageOk := fun _ => true, writeDbOk := false, copyDbOk := true,
        deleteOk := fun _ => true }
      { pendingUploads := [{ name := "a.mp3", status := UStatus.staged }],
        pendingFileDeletes := ["iPod_Control/Music/F00/x.mp3"] }
      rfl).1 (by decide)).1

/-- Claim C2 counterexample: a pending-delete entry whose physical removal
fails (the delete oracle refuses every path) is nevertheless removed from
the pending-delete list — the session ends `done` with nothing deleted and
the list cleared, contradicting "the entry is removed from the
pending-delete list only after its physical deletion on the device
succeeds / remains queued". -/
theorem C2_entry_cleared_despite_failed_delete :
    saveDatabase
      { connected := true, stageOk := fun _ => true, writeDbOk := true, copyDbOk := true,
        deleteOk := fun _ => false }
      { pendingUploads := [], pendingFileDeletes := ["iPod_Control/Music/F00/a.mp3"] } =
    { state := { pendingUploads := [], pendingFileDeletes := [] },
      outcome := SyncOutcome.done, deleted := [] } := by
  rfl

/-- Claim C2 (amended): during ApplyingDeletes every pending entry's
physical removal is attempted and individual failures do not fail the
session (it still reaches `done`); the successfully removed paths are
exactly those the delete oracle accepts; but the pending-delete list is
cleared in full at the end of a successful session regardless of individual
failures, and is retained in full only when the session fails at the
database write or the device copy. -/
theorem C2_pending_delete_lifecycle (env : SyncEnv) (s : SyncState)
    (hc : env.connected = true) :
    (env.writeDbOk = true → env.copyDbOk = true →
      (saveDatabase env s).outcome = SyncOutcome.done ∧
      (saveDatabase env s).deleted = s.pendingFileDeletes.filter (fun p => env.deleteOk p) ∧
      (saveDatabase env s).state.pendingFileDeletes = []) ∧
    (env.writeDbOk = false ∨ env.copyDbOk = false →
      (saveDatabase env s).state.pendingFileDeletes = s.pendingFileDeletes) := by
  constructor
  · intro hw hcp
    rw [saveDatabase_success env s hc hw hcp]
    exact ⟨rfl, rfl, rfl⟩
  · intro hfail
    rcases hw : env.writeDbOk
    · rw [saveDatabase_writeFail env s hc hw]
    · rcases hcp : env.copyDbOk
      · rw [saveDatabase_copyFail env s hc hw hcp]
      · rcases hfail with hfail | hfail
        · exact absurd hw (by simp [hfail])
        · exact absurd hcp (by simp [hfail])

/-- Witness for the amended C2: one delete succeeds, one fails; the session
is `done`, only the accepted path was deleted, the list is cleared. -/
theorem C2_pending_delete_lifecycle_witness :
    (saveDatabase
      { connected := true, stageOk := fun _ => true, writeDbOk := true, copyDbOk := true,
        deleteOk := fun p => p = "good" }
      { pendingUploads := [], pendingFileDeletes := ["good", "bad"] }).deleted = ["good"] :=
  (((C2_pending_delete_lifecycle
      { connected := true, stageOk := fun _ => true, writeDbOk := true, copyDbOk := true,
        deleteOk := fun p => p = "good" }
      { pendingUploads := [], pendingFileDeletes := ["good", "bad"] }
      rfl).1 rfl rfl).2.1).trans (by decide)

/-! ### PathCodec theorems -/

/-- Claim C9 counterexample: the round-trip fails on a portable path that
contains the hierarchical separator but also already contains the device's
reserved colon separator — `toDeviceFormat` maps both `/` and the
pre-existing `:` to `:`, and `toPortableFormat` turns all of them back into
`/`. -/
theorem C9_pathCodec_roundtrip_counterexample :
    '/' ∈ "a:b/c".data ∧
    ipod_path_to_fs_format (ipod_path_to_ipod_format "a:b/c") ≠ "a:b/c" := by
  decide

/-- Claim C9 (amended): for every portable path containing the hierarchical
separator and no colon, `toPortableFormat (toDeviceFormat p) = p`; both
conversions are total character maps exchanging `/` and `:` and never touch
a filesystem. -/
theorem C9_pathCodec_roundtrip (p : String) (hsep : '/' ∈ p.data)
    (hnc : ':' ∉ p.data) :
    ipod_path_to_fs_format (ipod_path_to_ipod_format p) = p := by
  obtain ⟨l⟩ := p
  have hl : ':' ∉ l := hnc
  show String.mk (List.map _ (List.map _ l)) = String.mk l
  refine congrArg String.mk ?_
  clear hsep hnc
  induction l with
  | nil => rfl
  | cons c cs ih =>
    have hc : ¬ c = ':' := fun h => hl (by rw [h]; exact List.mem_cons_self _ _)
    have hcs : ':' ∉ cs := fun h => hl (List.mem_cons_of_mem _ h)
    simp only [List.map_cons, List.cons.injEq]
    refine ⟨?_, ih hcs⟩
    by_cases h : c = '/'
    · simp [h]
    · simp [h, hc]

/-- Witness for C9 on a representative device-relative path. -/
theorem C9_pathCodec_roundtrip_witness :
    '/' ∈ "/F00/x.mp3".data ∧ ':' ∉ "/F00/x.mp3".data ∧
    ipod_path_to_fs_format (ipod_path_to_ipod_format "/F00/x.mp3") = "/F00/x.mp3" :=
  ⟨by decide, by decide, C9_pathCodec_roundtrip "/F00/x.mp3" (by decide) (by decide)⟩

/-! ### Engine helper lemmas -/

/-- A valid C index resolves to the list element at that position. -/
theorem glistNthData_eq_get {α : Type} (l : List α) (i : Int) (h0 : 0 ≤ i)
    (hlen : i.toNat < l.length) :
    glistNthData l i = some (l.get ⟨i.toNat, hlen⟩) := by
  simp [glistNthData, h0, List.getElem?_eq_getElem hlen]

/-- An out-of-range C index (negative, hence huge after the unsigned cast,
or past the end) resolves to NULL. -/
theorem glistNthData_eq_none {α : Type} (l : List α) (i : Int)
    (h : ¬(0 ≤ i ∧ i.toNat < l.length)) : glistNthData l i = none := by
  unfold glistNthData
  by_cases h0 : 0 ≤ i
  · have hge : l.length ≤ i.toNat := Nat.le_of_not_lt (fun hl => h ⟨h0, hl⟩)
    simp [h0, List.getElem?_eq_none hge]
  · simp [h0]

/-- A successful C index lookup is an indexed lookup. -/
theorem glistNthData_some {α : Type} {l : List α} {i : Int} {x : α}
    (h : glistNthData l i = some x) : l[i.toNat]? = some x := by
  unfold glistNthData at h
  by_cases h0 : 0 ≤ i
  · rwa [if_pos h0] at h
  · rw [if_neg h0] at h; cases h

/-- An element found by a C index lookup is in the list. -/
theorem glistNthData_mem {α : Type} {l : List α} {i : Int} {x : α}
    (h : glistNthData l i = some x) : x ∈ l :=
  List.getElem?_mem (glistNthData_some h)

/-- Master-playlist append does not touch the track list. -/
theorem addToMplIfAbsent_tracks (tid : Nat) (db : Itdb) :
    (addToMplIfAbsent tid db).tracks = db.tracks := by
  unfold addToMplIfAbsent
  split
  · rfl
  · split
    · split <;> rfl
    · rfl

/-- Master-playlist append does not touch the freshness counter. -/
theorem addToMplIfAbsent_nextTid (tid : Nat) (db : Itdb) :
    (addToMplIfAbsent tid db).nextTid = db.nextTid := by
  unfold addToMplIfAbsent
  split
  · rfl
  · split
    · split <;> rfl
    · rfl

/-- Master-playlist append either leaves the playlists alone or appends the
new member to the head playlist. -/
theorem addToMplIfAbsent_playlists_cases (tid : Nat) (db : Itdb) :
    (addToMplIfAbsent tid db).playlists = db.playlists ∨
    ∃ mpl rest, db.playlists = mpl :: rest ∧
      (addToMplIfAbsent tid db).playlists =
        ({ mpl with members := mpl.members ++ [some tid] }) :: rest ∧
      ¬ playlistContainsTid mpl tid := by
  unfold addToMplIfAbsent
  split
  · left; rfl
  · next mpl rest heq =>
    by_cases hm : mpl.isMaster = true
    · rw [if_pos hm]
      by_cases hcont : playlistContainsTid mpl tid
      · rw [if_pos hcont]; left; rfl
      · rw [if_neg hcont]; right; exact ⟨mpl, rest, heq, rfl, hcont⟩
    · rw [if_neg hm]; left; rfl

/-- When the master playlist is at the head (as libgpod guarantees), the
added track ends up a member of the head playlist. -/
theorem addToMplIfAbsent_mem (tid : Nat) (db : Itdb) (mpl : Playlist)
    (rest : List Playlist) (hpl : db.playlists = mpl :: rest) (hm : mpl.isMaster = true) :
    ∃ mpl1 rest1, (addToMplIfAbsent tid db).playlists = mpl1 :: rest1 ∧
      some tid ∈ mpl1.members := by
  unfold addToMplIfAbsent
  split
  · next heq =>
    rw [hpl] at heq
    exact (List.cons_ne_nil _ _ heq).elim
  · next mpl2 rest2 heq =>
    rw [hpl] at heq
    injection heq with h1 h2
    subst h1
    subst h2
    rw [if_pos hm]
    by_cases hcont : playlistContainsTid mpl tid
    · rw [if_pos hcont]
      exact ⟨mpl, rest, hpl, hcont⟩
    · rw [if_neg hcont]
      exact ⟨{ mpl with members := mpl.members ++ [some tid] }, rest, rfl, by simp⟩

/-- Zeta-reduced shape of `ipod_add_track`'s state. -/
theorem ipod_add_track_fst (db : Itdb) (a : AddTrackArgs) :
    (ipod_add_track db a).1 =
      { addToMplIfAbsent db.nextTid
          { db with tracks := db.tracks ++ [mkTrack a db.nextTid],
                    nextTid := db.nextTid + 1 }
        with lastAdded := some db.nextTid } := rfl

/-- Zeta-reduced shape of `ipod_add_track`'s return value. -/
theorem ipod_add_track_snd (db : Itdb) (a : AddTrackArgs) :
    (ipod_add_track db a).2 =
      glistIndexTid (db.tracks ++ [mkTrack a db.nextTid]) db.nextTid := by
  show glistIndexTid (addToMplIfAbsent db.nextTid
      { db with tracks := db.tracks ++ [mkTrack a db.nextTid],
                nextTid := db.nextTid + 1 }).tracks db.nextTid = _
  rw [addToMplIfAbsent_tracks]

/-- A pointer scan for a fresh track pointer appended at the end finds it at
the old length. -/
theorem findIdx_append_fresh (l : List Track) (x : Track) (t : Nat)
    (hfresh : ∀ tr ∈ l, tr.tid ≠ t) (hx : x.tid = t) :
    (l ++ [x]).findIdx (fun tr => tr.tid == t) = l.length := by
  induction l with
  | nil => simp [List.findIdx_cons, hx]
  | cons a l ih =>
    have ha : (a.tid == t) = false := by
      simp [hfresh a (List.mem_cons_self a l)]
    have ihl : (l ++ [x]).findIdx (fun tr => tr.tid == t) = l.length :=
      ih (fun tr htr => hfresh tr (List.mem_cons_of_mem a htr))
    simp [List.findIdx_cons, ha, ihl]

/-- `g_list_index` after a fresh append returns the old length. -/
theorem glistIndexTid_append_fresh (l : List Track) (x : Track) (t : Nat)
    (hfresh : ∀ tr ∈ l, tr.tid ≠ t) (hx : x.tid = t) :
    glistIndexTid (l ++ [x]) t = (l.length : Int) := by
  unfold glistIndexTid
  rw [findIdx_append_fresh l x t hfresh hx]
  rw [if_neg (by simp)]

/-! ### C5: master playlist guard in the public mutation operations -/

/-- Claim C5: a request through the public playlist-mutation operations to
add a track to, or remove a track from, the master playlist is rejected by
the guard before any engine call: the result is the master-guard error (a
logged warning, not a silent success) and the database — in particular the
master playlist's membership — is unchanged. -/
theorem C5_master_playlist_guard (db : Itdb) (trackId idx : Int)
    (h0 : 0 ≤ idx) (hlen : idx.toNat < db.playlists.length)
    (hm : (db.playlists.get ⟨idx.toNat, hlen⟩).isMaster = true) :
    addTrackToPlaylist db trackId idx = (db, TrackOpResult.masterGuard) ∧
    removeTrackFromPlaylist db idx trackId = (db, TrackOpResult.masterGuard) := by
  have hnth := glistNthData_eq_get db.playlists idx h0 hlen
  have hm1 : db.playlists[idx.toNat].isMaster = true := hm
  constructor
  · unfold addTrackToPlaylist
    rw [if_neg (by omega), hnth]
    simp [hm1]
  · unfold removeTrackFromPlaylist
    rw [if_neg (by omega), hnth]
    simp [hm1]

/-- Witness for C5: a database whose only playlist is the master. -/
theorem C5_master_playlist_guard_witness :
    addTrackToPlaylist
      { tracks := [], playlists :=
          [{ name := "iPod", isMaster := true, isPodcast := false, isSpl := false,
             members := [] }],
        nextTid := 0, lastAdded := none } 0 0 =
      Prod.mk
        { tracks := [], playlists :=
            [{ name := "iPod", isMaster := true, isPodcast := false, isSpl := false,
               members := [] }],
          nextTid := 0, lastAdded := none }
        TrackOpResult.masterGuard :=
  (C5_master_playlist_guard
    { tracks := [], playlists :=
        [{ name := "iPod", isMaster := true, isPodcast := false, isSpl := false,
           members := [] }],
      nextTid := 0, lastAdded := none } 0 0 (by decide) (by decide) (by decide)).1

/-! ### C8: idempotent playlist add -/

/-- Claim C8: adding a track that a (non-master) playlist already contains
succeeds (`return 0`, "Not an error") and leaves the whole database — in
particular that playlist's member list — unchanged; no duplicate member is
created. -/
theorem C8_addToPlaylist_idempotent (db : Itdb) (p t : Int)
    (hp0 : 0 ≤ p) (hplen : p.toNat < db.playlists.length)
    (ht0 : 0 ≤ t) (htlen : t.toNat < db.tracks.length)
    (hnm : (db.playlists.get ⟨p.toNat, hplen⟩).isMaster = false)
    (hmem : some (db.tracks.get ⟨t.toNat, htlen⟩).tid ∈
      (db.playlists.get ⟨p.toNat, hplen⟩).members) :
    ipod_playlist_add_track db p t = (db, 0) := by
  have hmem1 : some db.tracks[t.toNat].tid ∈ db.playlists[p.toNat].members := hmem
  unfold ipod_playlist_add_track
  rw [glistNthData_eq_get db.playlists p hp0 hplen,
      glistNthData_eq_get db.tracks t ht0 htlen]
  simp [playlistContainsTid, hmem1]

/-- Witness for C8: a playlist already containing the track at index 0. -/
theorem C8_addToPlaylist_idempotent_witness :
    ipod_playlist_add_track
      { tracks := [{ tid := 7, title := "t", artist := "a", album := "b", genre := "g",
                     filetype := "MPEG audio file", trackNr := 1, cdNr := 0, year := 0,
                     tracklen := 180000, bitrate := 128, samplerate := 44100, size := 1,
                     transferred := false, ipodPath := none, filetypeMarker := 0 }],
        playlists :=
          [{ name := "iPod", isMaster := true, isPodcast := false, isSpl := false,
             members := [some 7] },
           { name := "Mix", isMaster := false, isPodcast := false, isSpl := false,
             members := [some 7] }],
        nextTid := 8, lastAdded := some 7 } 1 0 =
      Prod.mk
        { tracks := [{ tid := 7, title := "t", artist := "a", album := "b", genre := "g",
                       filetype := "MPEG audio file", trackNr := 1, cdNr := 0, year := 0,
                       tracklen := 180000, bitrate := 128, samplerate := 44100, size := 1,
                       transferred := false, ipodPath := none, filetypeMarker := 0 }],
          playlists :=
            [{ name := "iPod", isMaster := true, isPodcast := false, isSpl := false,
               members := [some 7] },
             { name := "Mix", isMaster := false, isPodcast := false, isSpl := false,
               members := [some 7] }],
          nextTid := 8, lastAdded := some 7 }
        0 :=
  C8_addToPlaylist_idempotent
    { tracks := [{ tid := 7, title := "t", artist := "a", album := "b", genre := "g",
                   filetype := "MPEG audio file", trackNr := 1, cdNr := 0, year := 0,
                   tracklen := 180000, bitrate := 128, samplerate := 44100, size := 1,
                   transferred := false, ipodPath := none, filetypeMarker := 0 }],
      playlists :=
        [{ name := "iPod", isMaster := true, isPodcast := false, isSpl := false,
           members := [some 7] },
         { name := "Mix", isMaster := false, isPodcast := false, isSpl := false,
           members := [some 7] }],
      nextTid := 8, lastAdded := some 7 } 1 0
    (by decide) (by decide) (by decide) (by decide) (by decide) (by decide)

/-! ### C10: removing the last-added track clears the finalize slot -/

/-- Claim C10: removing the most-recently-created track clears the
`g_last_added_track` slot, so a subsequent finalize-last-track call fails
with an error ("No track has been added yet") and returns the database
unchanged. -/
theorem C10_remove_clears_lastAdded (db : Itdb) (i : Int) (mp dest : String)
    (sz : Int) :
    ∀ tr, glistNthData db.tracks i = some tr → db.lastAdded = some tr.tid →
      (ipod_remove_track db i).1.lastAdded = none ∧
      ipod_finalize_last_track_no_stat mp (ipod_remove_track db i).1 dest sz =
        ((ipod_remove_track db i).1, -1) := by
  intro tr hnth hlast
  have h1 : (ipod_remove_track db i).1.lastAdded = none := by
    unfold ipod_remove_track
    rw [hnth]
    simp [hlast]
  refine ⟨h1, ?_⟩
  unfold ipod_finalize_last_track_no_stat
  rw [h1]

/-- Witness for C10: one track, last-added, removed at index 0, then a
finalize attempt. -/
theorem C10_remove_clears_lastAdded_witness :
    (ipod_remove_track
      { tracks := [{ tid := 3, title := "t", artist := "a", album := "b", genre := "g",
                     filetype := "MPEG audio file", trackNr := 0, cdNr := 0, year := 0,
                     tracklen := 180000, bitrate := 128, samplerate := 44100, size := 9,
                     transferred := false, ipodPath := none, filetypeMarker := 0 }],
        playlists := [], nextTid := 4, lastAdded := some 3 } 0).1.lastAdded = none :=
  (C10_remove_clears_lastAdded
    { tracks := [{ tid := 3, title := "t", artist := "a", album := "b", genre := "g",
                   filetype := "MPEG audio file", trackNr := 0, cdNr := 0, year := 0,
                   tracklen := 180000, bitrate := 128, samplerate := 44100, size := 9,
                   transferred := false, ipodPath := none, filetypeMarker := 0 }],
      playlists := [], nextTid := 4, lastAdded := some 3 } 0 "/iPod"
    "/iPod/iPod_Control/Music/F00/x.mp3" 9
    { tid := 3, title := "t", artist := "a", album := "b", genre := "g",
      filetype := "MPEG audio file", trackNr := 0, cdNr := 0, year := 0,
      tracklen := 180000, bitrate := 128, samplerate := 44100, size := 9,
      transferred := false, ipodPath := none, filetypeMarker := 0 }
    (by decide) (by decide)).1

/-! ### C6: createTrack appends, auto-masters, returns the position -/

/-- Claim C6: `ipod_add_track` appends the new track at the end of the track
list, the new track is a member of the (head) master playlist immediately,
and the returned value is the track's current position in the track list. -/
theorem C6_createTrack_appends (db : Itdb) (a : AddTrackArgs)
    (mpl : Playlist) (rest : List Playlist)
    (hpl : db.playlists = mpl :: rest) (hm : mpl.isMaster = true)
    (hfresh : ∀ tr ∈ db.tracks, tr.tid ≠ db.nextTid) :
    (ipod_add_track db a).1.tracks = db.tracks ++ [mkTrack a db.nextTid] ∧
    (ipod_add_track db a).2 = (db.tracks.length : Int) ∧
    (∃ mpl1 rest1, (ipod_add_track db a).1.playlists = mpl1 :: rest1 ∧
      some db.nextTid ∈ mpl1.members) := by
  refine ⟨?_, ?_, ?_⟩
  · rw [ipod_add_track_fst]
    show (addToMplIfAbsent db.nextTid _).tracks = _
    rw [addToMplIfAbsent_tracks]
  · rw [ipod_add_track_snd]
    exact glistIndexTid_append_fresh db.tracks (mkTrack a db.nextTid) db.nextTid hfresh rfl
  · rw [ipod_add_track_fst]
    show ∃ mpl1 rest1, (addToMplIfAbsent db.nextTid _).playlists = mpl1 :: rest1 ∧ _
    exact addToMplIfAbsent_mem db.nextTid _ mpl rest hpl hm

/-- Witness for C6: adding to a database holding one master playlist. -/
theorem C6_createTrack_appends_witness :
    (ipod_add_track
      { tracks := [], playlists :=
          [{ name := "iPod", isMaster := true, isPodcast := false, isSpl := false,
             members := [] }],
        nextTid := 0, lastAdded := none }
      { title := "t", artist := "a", album := "b", genre := "g", trackNr := 1, cdNr := 0,
        year := 2020, tracklenMs := 180000, bitrate := 128, samplerate := 44100,
        sizeBytes := 5, filetype := "MPEG audio file" }).2 = 0 :=
  ((C6_createTrack_appends
    { tracks := [], playlists :=
        [{ name := "iPod", isMaster := true, isPodcast := false, isSpl := false,
           members := [] }],
      nextTid := 0, lastAdded := none }
    { title := "t", artist := "a", album := "b", genre := "g", trackNr := 1, cdNr := 0,
      year := 2020, tracklenMs := 180000, bitrate := 128, samplerate := 44100,
      sizeBytes := 5, filetype := "MPEG audio file" }
    { name := "iPod", isMaster := true, isPodcast := false, isSpl := false, members := [] }
    [] rfl rfl (by intro tr htr; cases htr)).2.1).trans rfl

/-! ### C7: numeric fallbacks in `wasmAddTrack` -/

/-- Claim C7: when `durationMs`, `bitrateKbps` or `samplerateHz` is
non-finite (NaN or an infinity), the track stored by `wasmAddTrack` carries
the fixed fallback for that field — 180000 ms, 128 kbps, 44100 Hz — and in
particular the stored duration is the integer 180000, never NaN (the stored
field is an integer by construction) and never zero. The first conjunct
pins down the stored track as the one appended to the track list. -/
theorem C7_numeric_fallbacks (db : Itdb) (a : WasmTrackArgs) :
    (wasmAddTrack db a).1.tracks = db.tracks ++ [mkTrack (wasmSafeArgs a) db.nextTid] ∧
    (a.durationMs.isFinite = false →
      (mkTrack (wasmSafeArgs a) db.nextTid).tracklen = 180000 ∧
      (mkTrack (wasmSafeArgs a) db.nextTid).tracklen ≠ 0) ∧
    (a.bitrateKbps.isFinite = false →
      (mkTrack (wasmSafeArgs a) db.nextTid).bitrate = 128) ∧
    (a.samplerateHz.isFinite = false →
      (mkTrack (wasmSafeArgs a) db.nextTid).samplerate = 44100) := by
  refine ⟨?_, ?_, ?_, ?_⟩
  · show (ipod_add_track db (wasmSafeArgs a)).1.tracks = _
    rw [ipod_add_track_fst]
    show (addToMplIfAbsent db.nextTid _).tracks = _
    rw [addToMplIfAbsent_tracks]
  · intro h
    rcases hd : a.durationMs with _ | _ | _ | v <;>
      simp_all [mkTrack, wasmSafeArgs, JNum.finitePosOr, JNum.isFinite] <;>
      decide
  · intro h
    rcases hd : a.bitrateKbps with _ | _ | _ | v <;>
      simp_all [mkTrack, wasmSafeArgs, JNum.finitePosOr, JNum.isFinite] <;>
      decide
  · intro h
    rcases hd : a.samplerateHz with _ | _ | _ | v <;>
      simp_all [mkTrack, wasmSafeArgs, JNum.finitePosOr, JNum.isFinite] <;>
      decide

/-- Witness for C7: `createTrack` with `durationMs = NaN` (Scenario E)
stores the fallback 180000. -/
theorem C7_numeric_fallbacks_witness :
    (mkTrack (wasmSafeArgs
      { title := "t", artist := "", album := "", genre := "", trackNr := JNum.num 1,
        cdNr := JNum.num 0, year := JNum.num 0, durationMs := JNum.nan,
        bitrateKbps := JNum.num 128, samplerateHz := JNum.num 44100,
        sizeBytes := JNum.num 9, filetype := "MPEG audio file" })
      0).tracklen = 180000 :=
  ((C7_numeric_fallbacks
    { tracks := [], playlists := [], nextTid := 0, lastAdded := none }
    { title := "t", artist := "", album := "", genre := "", trackNr := JNum.num 1,
      cdNr := JNum.num 0, year := JNum.num 0, durationMs := JNum.nan,
      bitrateKbps := JNum.num 128, samplerateHz := JNum.num 44100,
      sizeBytes := JNum.num 9, filetype := "MPEG audio file" }).2.1 rfl).1

/-! ### C3: removeTrack cascade and deferred physical deletion -/

/-- A pointer removal of the track at a valid index, under pointer
uniqueness, is exactly the removal of that index. -/
theorem removeTrackByTid_eq_eraseIdx (l : List Track) (i : Nat) (h : i < l.length)
    (hnd : (l.map Track.tid).Nodup) :
    removeTrackByTid (l.get ⟨i, h⟩).tid l = l.eraseIdx i := by
  induction l generalizing i with
  | nil => exact absurd h (Nat.not_lt_zero i)
  | cons a l ih =>
    cases i with
    | zero => simp [removeTrackByTid, List.eraseIdx]
    | succ n =>
      have hn : n < l.length := Nat.lt_of_succ_lt_succ h
      have hhead : a.tid ∉ l.map Track.tid := (List.nodup_cons.mp hnd).1
      have hne : ¬ a.tid = (l.get ⟨n, hn⟩).tid := by
        intro he
        exact hhead (he ▸ List.mem_map_of_mem Track.tid (l.get_mem n hn))
      have htl : (l.map Track.tid).Nodup := (List.nodup_cons.mp hnd).2
      show removeTrackByTid ((a :: l).get ⟨n + 1, h⟩).tid (a :: l) = _
      rw [List.get_cons_succ]
      rw [removeTrackByTid, if_neg hne]
      rw [ih n hn htl]
      rfl

/-- After the playlist sweep of `ipod_remove_track`, no playlist whose
member list was duplicate-free still references the removed track. -/
theorem not_mem_after_removeFromAllPlaylists (tid : Nat) (pls : List Playlist)
    (hnd : ∀ pl ∈ pls, pl.members.Nodup) :
    ∀ pl1 ∈ removeFromAllPlaylists tid pls, some tid ∉ pl1.members := by
  intro pl1 h1
  rw [removeFromAllPlaylists, List.mem_map] at h1
  obtain ⟨pl, hpl, rfl⟩ := h1
  by_cases hc : playlistContainsTid pl tid
  · rw [if_pos hc]
    intro hmem
    have := ((hnd pl hpl).mem_erase_iff).mp hmem
    exact this.1 rfl
  · rw [if_neg hc]
    exact hc

/-- Shape of a successful `ipod_remove_track` at a valid index. -/
theorem ipod_remove_track_eq (db : Itdb) (i : Int) (tr : Track)
    (hnth : glistNthData db.tracks i = some tr) :
    ipod_remove_track db i =
      Prod.mk
        { tracks := removeTrackByTid tr.tid db.tracks,
          playlists := removeFromAllPlaylists tr.tid db.playlists,
          nextTid := db.nextTid,
          lastAdded := if db.lastAdded = some tr.tid then none else db.lastAdded }
        0 := by
  unfold ipod_remove_track
  rw [hnth]

/-- Claim C3: for a valid `localIndex`, the composite delete operation
(`deleteTrack` over `ipod_remove_track`) succeeds, removes the referenced
track from the members of every playlist that contained it, removes the
track from the engine's track list (the element at that index), and — when
the track carries a device path — appends exactly that path (converted to a
relative filesystem path) to the pending-delete list so the caller can
schedule physical deletion; for an out-of-range index it fails with the
NotFound result -1 and changes neither the database nor the pending-delete
list. -/
theorem C3_removeTrack_cascade (db : Itdb) (dels : List String) (i : Int) :
    (∀ (h0 : 0 ≤ i) (hlen : i.toNat < db.tracks.length),
      (db.tracks.map Track.tid).Nodup →
      (∀ pl ∈ db.playlists, pl.members.Nodup) →
      (deleteTrack db dels i).2.2 = 0 ∧
      (deleteTrack db dels i).1.tracks = db.tracks.eraseIdx i.toNat ∧
      (∀ pl1 ∈ (deleteTrack db dels i).1.playlists,
        some (db.tracks.get ⟨i.toNat, hlen⟩).tid ∉ pl1.members) ∧
      (∀ p, (db.tracks.get ⟨i.toNat, hlen⟩).ipodPath = some p → ¬ p = "" →
        (deleteTrack db dels i).2.1 = dels ++ [toRelFsPathFromIpodDbPath p])) ∧
    (¬(0 ≤ i ∧ i.toNat < db.tracks.length) →
      deleteTrack db dels i = (db, dels, -1)) := by
  constructor
  · intro h0 hlen hndT hndM
    have hnth := glistNthData_eq_get db.tracks i h0 hlen
    have hrm := ipod_remove_track_eq db i (db.tracks.get ⟨i.toNat, hlen⟩) hnth
    refine ⟨?_, ?_, ?_, ?_⟩
    · unfold deleteTrack
      rw [hrm]
      simp
    · unfold deleteTrack
      rw [hrm]
      simp only [if_pos rfl]
      exact removeTrackByTid_eq_eraseIdx db.tracks i.toNat hlen hndT
    · unfold deleteTrack
      rw [hrm]
      simp only [if_pos rfl]
      exact not_mem_after_removeFromAllPlaylists _ db.playlists hndM
    · intro p hp hne
      have hjson : jsonIpodPath db i = p := by
        unfold jsonIpodPath
        rw [hnth]
        show (db.tracks.get ⟨i.toNat, hlen⟩).ipodPath.getD "" = p
        rw [hp]
        rfl
      unfold deleteTrack
      rw [hrm, hjson]
      simp [hne]
  · intro hbad
    have hnone := glistNthData_eq_none db.tracks i hbad
    have hrm : ipod_remove_track db i = (db, -1) := by
      unfold ipod_remove_track
      rw [hnone]
    unfold deleteTrack
    rw [hrm]
    norm_num

/-- Witness for C3: a one-track database, the track in two playlists, a
stored device path; delete at index 0. -/
theorem C3_removeTrack_cascade_witness :
    (deleteTrack
      { tracks := [{ tid := 0, title := "t", artist := "a", album := "b", genre := "g",
                     filetype := "MPEG audio file", trackNr := 0, cdNr := 0, year := 0,
                     tracklen := 180000, bitrate := 128, samplerate := 44100, size := 9,
                     transferred := true,
                     ipodPath := some ":iPod_Control:Music:F00:x.mp3",
                     filetypeMarker := 0 }],
        playlists :=
          [{ name := "iPod", isMaster := true, isPodcast := false, isSpl := false,
             members := [some 0] },
           { name := "Mix", isMaster := false, isPodcast := false, isSpl := false,
             members := [some 0] }],
        nextTid := 1, lastAdded := none } [] 0).2.1 =
      [] ++ [toRelFsPathFromIpodDbPath ":iPod_Control:Music:F00:x.mp3"] :=
  ((C3_removeTrack_cascade
    { tracks := [{ tid := 0, title := "t", artist := "a", album := "b", genre := "g",
                   filetype := "MPEG audio file", trackNr := 0, cdNr := 0, year := 0,
                   tracklen := 180000, bitrate := 128, samplerate := 44100, size := 9,
                   transferred := true,
                   ipodPath := some ":iPod_Control:Music:F00:x.mp3",
                   filetypeMarker := 0 }],
      playlists :=
        [{ name := "iPod", isMaster := true, isPodcast := false, isSpl := false,
           members := [some 0] },
         { name := "Mix", isMaster := false, isPodcast := false, isSpl := false,
           members := [some 0] }],
      nextTid := 1, lastAdded := none } [] 0).1 (by decide) (by decide) (by decide)
    (by decide)).2.2.2 ":iPod_Control:Music:F00:x.mp3" rfl (by decide)

/-! ### C4: invariant I1 and pre-persist stale-reference repair -/

/-- Appending a fresh element preserves duplicate-freedom. -/
theorem nodup_append_singleton {α : Type} {l : List α} {a : α}
    (hnd : l.Nodup) (ha : a ∉ l) : (l ++ [a]).Nodup := by
  induction l with
  | nil => simp
  | cons b l ih =>
    rw [List.cons_append, List.nodup_cons]
    have hb := List.nodup_cons.mp hnd
    refine ⟨?_, ih hb.2 (fun h => ha (List.mem_cons_of_mem b h))⟩
    intro hmem
    rcases List.mem_append.mp hmem with h | h
    · exact hb.1 h
    · cases List.mem_singleton.mp h
      exact ha (List.mem_cons_self _ _)

/-- Replacing the element at a position by one with the same identity keeps
the identity listing. -/
theorem map_tid_set (l : List Track) (i : Nat) (tr tr1 : Track)
    (h : l[i]? = some tr) (htid : tr1.tid = tr.tid) :
    (l.set i tr1).map Track.tid = l.map Track.tid := by
  induction l generalizing i with
  | nil => simp at h
  | cons a l ih =>
    cases i with
    | zero =>
      have ha : a = tr := by simpa using h
      simp [List.set, htid, ha]
    | succ n =>
      have hn : l[n]? = some tr := by simpa using h
      simp [List.set, ih n hn]

/-- A pointwise identity-preserving rewrite of the track list keeps the
identity listing. -/
theorem map_tid_map (l : List Track) (f : Track → Track)
    (hf : ∀ tr, (f tr).tid = tr.tid) :
    (l.map f).map Track.tid = l.map Track.tid := by
  rw [List.map_map]
  exact List.map_congr_left (fun tr _ => hf tr)

/-- A track different from the removed pointer survives `itdb_track_remove`. -/
theorem mem_removeTrackByTid (t : Nat) (l : List Track) (tr : Track)
    (htr : tr ∈ l) (hne : ¬ tr.tid = t) : tr ∈ removeTrackByTid t l := by
  induction l with
  | nil => cases htr
  | cons a l ih =>
    rw [removeTrackByTid]
    by_cases ha : a.tid = t
    · rw [if_pos ha]
      rcases List.mem_cons.mp htr with rfl | h
      · exact absurd ha hne
      · exact h
    · rw [if_neg ha]
      rcases List.mem_cons.mp htr with rfl | h
      · exact List.mem_cons_self _ _
      · exact List.mem_cons_of_mem _ (ih h)

/-- `itdb_track_remove` yields a sublist of the track list. -/
theorem removeTrackByTid_sublist (t : Nat) :
    ∀ l : List Track, List.Sublist (removeTrackByTid t l) l := by
  intro l
  induction l with
  | nil => exact List.Sublist.refl []
  | cons a l ih =>
    rw [removeTrackByTid]
    by_cases ha : a.tid = t
    · rw [if_pos ha]
      exact List.sublist_cons_self a l
    · rw [if_neg ha]
      exact List.Sublist.cons₂ a ih

/-- Replacing the track list by one with the same identity listing (and
leaving playlists alone) preserves well-formedness and I1. -/
theorem WF_I1_retrack (db : Itdb) (tracks1 : List Track)
    (hmap : tracks1.map Track.tid = db.tracks.map Track.tid)
    (hWF : WF db) (hI1 : I1 db) :
    WF { db with tracks := tracks1 } ∧ I1 { db with tracks := tracks1 } := by
  obtain ⟨hndT, hfresh, hndM⟩ := hWF
  refine ⟨⟨?_, ?_, hndM⟩, ?_⟩
  · show (tracks1.map Track.tid).Nodup
    rw [hmap]
    exact hndT
  · intro tr htr
    have hmem : tr.tid ∈ db.tracks.map Track.tid := by
      rw [← hmap]
      exact List.mem_map_of_mem Track.tid htr
    obtain ⟨tr0, htr0, heq⟩ := List.mem_map.mp hmem
    show tr.tid < db.nextTid
    rw [← heq]
    exact hfresh tr0 htr0
  · intro pl hpl m hm
    obtain ⟨t, ht, hms⟩ := hI1 pl hpl m hm
    refine ⟨t, ?_, hms⟩
    show t ∈ tracks1.map Track.tid
    rw [hmap]
    exact ht

/-- `ipod_add_track` preserves well-formedness and I1: the appended track is
fresh, and the master playlist gains at most one reference to it. -/
theorem WF_I1_addTrack (db : Itdb) (a : AddTrackArgs)
    (hWF : WF db) (hI1 : I1 db) :
    WF (ipod_add_track db a).1 ∧ I1 (ipod_add_track db a).1 := by
  obtain ⟨hndT, hfresh, hndM⟩ := hWF
  have hnt : db.nextTid ∉ tidsOf db := by
    intro hmem
    obtain ⟨tr0, htr0, heq⟩ := List.mem_map.mp hmem
    exact absurd heq (Nat.ne_of_lt (hfresh tr0 htr0))
  have htracksF : (ipod_add_track db a).1.tracks = db.tracks ++ [mkTrack a db.nextTid] := by
    rw [ipod_add_track_fst]
    show (addToMplIfAbsent db.nextTid _).tracks = _
    rw [addToMplIfAbsent_tracks]
  have htidsF : tidsOf (ipod_add_track db a).1 = tidsOf db ++ [db.nextTid] := by
    unfold tidsOf
    rw [htracksF, List.map_append]
    rfl
  have hntF : (ipod_add_track db a).1.nextTid = db.nextTid + 1 := by
    rw [ipod_add_track_fst]
    show (addToMplIfAbsent db.nextTid _).nextTid = _
    rw [addToMplIfAbsent_nextTid]
  have hplF : (ipod_add_track db a).1.playlists =
      (addToMplIfAbsent db.nextTid
        { db with tracks := db.tracks ++ [mkTrack a db.nextTid],
                  nextTid := db.nextTid + 1 }).playlists := by
    rw [ipod_add_track_fst]
  rcases addToMplIfAbsent_playlists_cases db.nextTid
      { db with tracks := db.tracks ++ [mkTrack a db.nextTid], nextTid := db.nextTid + 1 }
    with hsame | ⟨mpl, rest, hplcons, hupd, hcont⟩
  all_goals refine ⟨⟨?_, ?_, ?_⟩, ?_⟩
  · rw [htidsF]
    exact nodup_append_singleton hndT hnt
  · intro tr htr
    rw [htracksF] at htr
    rw [hntF]
    rcases List.mem_append.mp htr with h | h
    · exact Nat.lt_succ_of_lt (hfresh tr h)
    · cases List.mem_singleton.mp h
      exact Nat.lt_succ_self db.nextTid
  · intro pl hpl1
    rw [hplF, hsame] at hpl1
    exact hndM pl hpl1
  · intro pl hpl1 m hm
    rw [hplF, hsame] at hpl1
    obtain ⟨t, ht, hms⟩ := hI1 pl hpl1 m hm
    refine ⟨t, ?_, hms⟩
    rw [htidsF]
    exact List.mem_append_left _ ht
  · rw [htidsF]
    exact nodup_append_singleton hndT hnt
  · intro tr htr
    rw [htracksF] at htr
    rw [hntF]
    rcases List.mem_append.mp htr with h | h
    · exact Nat.lt_succ_of_lt (hfresh tr h)
    · cases List.mem_singleton.mp h
      exact Nat.lt_succ_self db.nextTid
  · intro pl hpl1
    rw [hplF, hupd] at hpl1
    have hplcons1 : db.playlists = mpl :: rest := hplcons
    rcases List.mem_cons.mp hpl1 with rfl | h
    · show (mpl.members ++ [some db.nextTid]).Nodup
      refine nodup_append_singleton
        (hndM mpl (by rw [hplcons1]; exact List.mem_cons_self _ _)) hcont
    · exact hndM pl (by rw [hplcons1]; exact List.mem_cons_of_mem _ h)
  · intro pl hpl1 m hm
    rw [hplF, hupd] at hpl1
    have hplcons1 : db.playlists = mpl :: rest := hplcons
    have hnew : db.nextTid ∈ tidsOf (ipod_add_track db a).1 := by
      rw [htidsF]
      exact List.mem_append_right _ (List.mem_singleton.mpr rfl)
    have hsub : ∀ t, t ∈ tidsOf db → t ∈ tidsOf (ipod_add_track db a).1 := by
      intro t ht
      rw [htidsF]
      exact List.mem_append_left _ ht
    rcases List.mem_cons.mp hpl1 with rfl | h
    · have hm1 : m ∈ mpl.members ++ [some db.nextTid] := hm
      rcases List.mem_append.mp hm1 with h2 | h2
      · obtain ⟨t, ht, hms⟩ :=
          hI1 mpl (by rw [hplcons1]; exact List.mem_cons_self _ _) m h2
        exact ⟨t, hsub t ht, hms⟩
      · cases List.mem_singleton.mp h2
        exact ⟨db.nextTid, hnew, rfl⟩
    · obtain ⟨t, ht, hms⟩ :=
        hI1 pl (by rw [hplcons1]; exact List.mem_cons_of_mem _ h) m hm
      exact ⟨t, hsub t ht, hms⟩

/-- `ipod_remove_track` preserves well-formedness and I1: the playlist sweep
removes the only member node referencing the removed track before the track
itself goes. -/
theorem WF_I1_removeTrack (db : Itdb) (i : Int) (hWF : WF db) (hI1 : I1 db) :
    WF (ipod_remove_track db i).1 ∧ I1 (ipod_remove_track db i).1 := by
  obtain ⟨hndT, hfresh, hndM⟩ := hWF
  rcases hnth : glistNthData db.tracks i with _ | tr
  · have hid : (ipod_remove_track db i).1 = db := by
      unfold ipod_remove_track
      rw [hnth]
    rw [hid]
    exact ⟨⟨hndT, hfresh, hndM⟩, hI1⟩
  · have heq := ipod_remove_track_eq db i tr hnth
    rw [heq]
    refine ⟨⟨?_, ?_, ?_⟩, ?_⟩
    · show ((removeTrackByTid tr.tid db.tracks).map Track.tid).Nodup
      exact hndT.sublist (List.Sublist.map Track.tid (removeTrackByTid_sublist tr.tid db.tracks))
    · intro tr1 htr1
      exact hfresh tr1 ((removeTrackByTid_sublist tr.tid db.tracks).subset htr1)
    · intro pl1 h1
      have h2 : pl1 ∈ removeFromAllPlaylists tr.tid db.playlists := h1
      rw [removeFromAllPlaylists, List.mem_map] at h2
      obtain ⟨pl, hpl, rfl⟩ := h2
      by_cases hc : playlistContainsTid pl tr.tid
      · rw [if_pos hc]
        show (pl.members.erase (some tr.tid)).Nodup
        exact (hndM pl hpl).erase _
      · rw [if_neg hc]
        exact hndM pl hpl
    · intro pl1 h1 m hm
      have h2 : pl1 ∈ removeFromAllPlaylists tr.tid db.playlists := h1
      rw [removeFromAllPlaylists, List.mem_map] at h2
      obtain ⟨pl, hpl, rfl⟩ := h2
      by_cases hc : playlistContainsTid pl tr.tid
      · rw [if_pos hc] at hm
        have hm2 : m ∈ pl.members.erase (some tr.tid) := hm
        obtain ⟨hne, hm0⟩ := (hndM pl hpl).mem_erase_iff.mp hm2
        obtain ⟨t, ht, hms⟩ := hI1 pl hpl m hm0
        have htne : ¬ t = tr.tid := fun h => hne (by rw [hms, h])
        obtain ⟨tr0, htr0, htid0⟩ := List.mem_map.mp ht
        refine ⟨t, ?_, hms⟩
        show t ∈ (removeTrackByTid tr.tid db.tracks).map Track.tid
        have hmem0 : tr0 ∈ removeTrackByTid tr.tid db.tracks :=
          mem_removeTrackByTid tr.tid db.tracks tr0 htr0 (by rw [htid0]; exact htne)
        rw [← htid0]
        exact List.mem_map_of_mem Track.tid hmem0
      · rw [if_neg hc] at hm
        obtain ⟨t, ht, hms⟩ := hI1 pl hpl m hm
        have htne : ¬ t = tr.tid := by
          intro h
          exact hc (by show some tr.tid ∈ pl.members; rw [← h, ← hms]; exact hm)
        obtain ⟨tr0, htr0, htid0⟩ := List.mem_map.mp ht
        refine ⟨t, ?_, hms⟩
        show t ∈ (removeTrackByTid tr.tid db.tracks).map Track.tid
        have hmem0 : tr0 ∈ removeTrackByTid tr.tid db.tracks :=
          mem_removeTrackByTid tr.tid db.tracks tr0 htr0 (by rw [htid0]; exact htne)
        rw [← htid0]
        exact List.mem_map_of_mem Track.tid hmem0

/-- `ipod_update_track` preserves well-formedness and I1: it replaces one
track record by another with the same identity. -/
theorem WF_I1_updateTrack (db : Itdb) (t : Int) (u : UpdateTrackArgs)
    (hWF : WF db) (hI1 : I1 db) :
    WF (ipod_update_track db t u).1 ∧ I1 (ipod_update_track db t u).1 := by
  rcases hnth : glistNthData db.tracks t with _ | tr
  · have hid : (ipod_update_track db t u).1 = db := by
      unfold ipod_update_track
      rw [hnth]
    rw [hid]
    exact ⟨hWF, hI1⟩
  · have hsome := glistNthData_some hnth
    have heq : (ipod_update_track db t u).1 =
        { db with tracks := db.tracks.set t.toNat { tr with
            title := u.title.getD tr.title
            artist := u.artist.getD tr.artist
            album := u.album.getD tr.album
            genre := u.genre.getD tr.genre
            trackNr := if 0 ≤ u.trackNr then u.trackNr else tr.trackNr
            year := if 0 ≤ u.year then u.year else tr.year } } := by
      unfold ipod_update_track
      rw [hnth]
    rw [heq]
    exact WF_I1_retrack db _ (map_tid_set db.tracks t.toNat tr _ hsome rfl) hWF hI1

/-- `ipod_track_set_path` preserves well-formedness and I1. -/
theorem WF_I1_trackSetPath (db : Itdb) (t : Int) (path : String)
    (hWF : WF db) (hI1 : I1 db) :
    WF (ipod_track_set_path db t path).1 ∧ I1 (ipod_track_set_path db t path).1 := by
  rcases hnth : glistNthData db.tracks t with _ | tr
  · have hid : (ipod_track_set_path db t path).1 = db := by
      unfold ipod_track_set_path
      rw [hnth]
    rw [hid]
    exact ⟨hWF, hI1⟩
  · have hsome := glistNthData_some hnth
    have heq : (ipod_track_set_path db t path).1 =
        { db with tracks := db.tracks.set t.toNat { tr with
            ipodPath := some path, transferred := true } } := by
      unfold ipod_track_set_path
      rw [hnth]
    rw [heq]
    exact WF_I1_retrack db _ (map_tid_set db.tracks t.toNat tr _ hsome rfl) hWF hI1

/-- The transferred/size/path-clearing rewrite keeps the track identity. -/
theorem finalizeMark_tid (tid : Nat) (sizeBytes : Int) (tr : Track) :
    (finalizeMark tid sizeBytes tr).tid = tr.tid := by
  unfold finalizeMark
  split <;> rfl

/-- The path/marker rewrite keeps the track identity. -/
theorem finalizeSetPath_tid (tid : Nat) (newPath : String) (marker : Nat) (tr : Track) :
    (finalizeSetPath tid newPath marker tr).tid = tr.tid := by
  unfold finalizeSetPath
  split <;> rfl

/-- `ipod_finalize_last_track_no_stat` preserves well-formedness and I1: each
of its track-list rewrites keeps every identity in place. -/
theorem WF_I1_finalize (mp : String) (db : Itdb) (dest : String) (size : Int)
    (hWF : WF db) (hI1 : I1 db) :
    WF (ipod_finalize_last_track_no_stat mp db dest size).1 ∧
    I1 (ipod_finalize_last_track_no_stat mp db dest size).1 := by
  unfold ipod_finalize_last_track_no_stat
  split
  · exact ⟨hWF, hI1⟩
  · rename_i tid heq
    split
    · exact ⟨hWF, hI1⟩
    · split
      · exact ⟨hWF, hI1⟩
      · split
        · exact WF_I1_retrack db _
            (map_tid_map db.tracks _ (finalizeMark_tid tid size)) hWF hI1
        · exact WF_I1_retrack db _
            ((map_tid_map _ _ (finalizeSetPath_tid tid _ _)).trans
              (map_tid_map db.tracks _ (finalizeMark_tid tid size))) hWF hI1

/-- `ipod_create_playlist` preserves well-formedness and I1: the appended
playlist has no members. -/
theorem WF_I1_createPlaylist (db : Itdb) (name : String)
    (hWF : WF db) (hI1 : I1 db) :
    WF (ipod_create_playlist db name).1 ∧ I1 (ipod_create_playlist db name).1 := by
  obtain ⟨hndT, hfresh, hndM⟩ := hWF
  unfold ipod_create_playlist
  split
  · exact ⟨⟨hndT, hfresh, hndM⟩, hI1⟩
  · refine ⟨⟨hndT, hfresh, ?_⟩, ?_⟩
    · intro pl hpl
      rcases List.mem_append.mp hpl with h | h
      · exact hndM pl h
      · cases List.mem_singleton.mp h
        exact List.nodup_nil
    · intro pl hpl m hm
      rcases List.mem_append.mp hpl with h | h
      · exact hI1 pl h m hm
      · cases List.mem_singleton.mp h
        exact absurd hm (List.not_mem_nil m)

/-- `ipod_delete_playlist` preserves well-formedness and I1: the surviving
playlists are a sublist of the old ones. -/
theorem WF_I1_deletePlaylist (db : Itdb) (p : Int)
    (hWF : WF db) (hI1 : I1 db) :
    WF (ipod_delete_playlist db p).1 ∧ I1 (ipod_delete_playlist db p).1 := by
  obtain ⟨hndT, hfresh, hndM⟩ := hWF
  unfold ipod_delete_playlist
  split
  · exact ⟨⟨hndT, hfresh, hndM⟩, hI1⟩
  · rename_i pl heq
    split
    · exact ⟨⟨hndT, hfresh, hndM⟩, hI1⟩
    · have hsub : ∀ x, x ∈ db.playlists.eraseIdx p.toNat → x ∈ db.playlists :=
        fun x hx => (List.eraseIdx_sublist db.playlists p.toNat).subset hx
      exact ⟨⟨hndT, hfresh, fun pl1 h1 => hndM pl1 (hsub pl1 h1)⟩,
             fun pl1 h1 m hm => hI1 pl1 (hsub pl1 h1) m hm⟩

/-- `ipod_rename_playlist` preserves well-formedness and I1: only the name
changes. -/
theorem WF_I1_renamePlaylist (db : Itdb) (p : Int) (name : String)
    (hWF : WF db) (hI1 : I1 db) :
    WF (ipod_rename_playlist db p name).1 ∧ I1 (ipod_rename_playlist db p name).1 := by
  obtain ⟨hndT, hfresh, hndM⟩ := hWF
  unfold ipod_rename_playlist
  split
  · exact ⟨⟨hndT, hfresh, hndM⟩, hI1⟩
  · rename_i pl heq
    split
    · exact ⟨⟨hndT, hfresh, hndM⟩, hI1⟩
    · have hplmem : pl ∈ db.playlists := glistNthData_mem heq
      refine ⟨⟨hndT, hfresh, ?_⟩, ?_⟩
      · intro pl1 h1
        rcases List.mem_or_eq_of_mem_set h1 with h | rfl
        · exact hndM pl1 h
        · exact hndM pl hplmem
      · intro pl1 h1 m hm
        rcases List.mem_or_eq_of_mem_set h1 with h | rfl
        · exact hI1 pl1 h m hm
        · exact hI1 pl hplmem m hm

/-- `ipod_playlist_add_track` preserves well-formedness and I1: the appended
member references a live track and is only appended when absent. -/
theorem WF_I1_playlistAddTrack (db : Itdb) (p t : Int)
    (hWF : WF db) (hI1 : I1 db) :
    WF (ipod_playlist_add_track db p t).1 ∧ I1 (ipod_playlist_add_track db p t).1 := by
  obtain ⟨hndT, hfresh, hndM⟩ := hWF
  unfold ipod_playlist_add_track
  split
  · exact ⟨⟨hndT, hfresh, hndM⟩, hI1⟩
  · rename_i pl heqp
    split
    · exact ⟨⟨hndT, hfresh, hndM⟩, hI1⟩
    · rename_i tr heqt
      split
      · exact ⟨⟨hndT, hfresh, hndM⟩, hI1⟩
      · rename_i hcont
        have hplmem : pl ∈ db.playlists := glistNthData_mem heqp
        have htrmem : tr ∈ db.tracks := glistNthData_mem heqt
        refine ⟨⟨hndT, hfresh, ?_⟩, ?_⟩
        · intro pl1 h1
          rcases List.mem_or_eq_of_mem_set h1 with h | rfl
          · exact hndM pl1 h
          · show (pl.members ++ [some tr.tid]).Nodup
            exact nodup_append_singleton (hndM pl hplmem) hcont
        · intro pl1 h1 m hm
          rcases List.mem_or_eq_of_mem_set h1 with h | rfl
          · exact hI1 pl1 h m hm
          · have hm1 : m ∈ pl.members ++ [some tr.tid] := hm
            rcases List.mem_append.mp hm1 with h2 | h2
            · exact hI1 pl hplmem m h2
            · cases List.mem_singleton.mp h2
              exact ⟨tr.tid, List.mem_map_of_mem Track.tid htrmem, rfl⟩

/-- `ipod_playlist_remove_track` preserves well-formedness and I1: the
member list only shrinks. -/
theorem WF_I1_playlistRemoveTrack (db : Itdb) (p t : Int)
    (hWF : WF db) (hI1 : I1 db) :
    WF (ipod_playlist_remove_track db p t).1 ∧
    I1 (ipod_playlist_remove_track db p t).1 := by
  obtain ⟨hndT, hfresh, hndM⟩ := hWF
  unfold ipod_playlist_remove_track
  split
  · exact ⟨⟨hndT, hfresh, hndM⟩, hI1⟩
  · rename_i pl heqp
    split
    · exact ⟨⟨hndT, hfresh, hndM⟩, hI1⟩
    · rename_i tr heqt
      split
      · rename_i hcont
        have hplmem : pl ∈ db.playlists := glistNthData_mem heqp
        refine ⟨⟨hndT, hfresh, ?_⟩, ?_⟩
        · intro pl1 h1
          rcases List.mem_or_eq_of_mem_set h1 with h | rfl
          · exact hndM pl1 h
          · show (pl.members.erase (some tr.tid)).Nodup
            exact (hndM pl hplmem).erase _
        · intro pl1 h1 m hm
          rcases List.mem_or_eq_of_mem_set h1 with h | rfl
          · exact hI1 pl1 h m hm
          · have hm1 : m ∈ pl.members.erase (some tr.tid) := hm
            exact hI1 pl hplmem m (List.mem_of_mem_erase hm1)
      · exact ⟨⟨hndT, hfresh, hndM⟩, hI1⟩

/-- Claim C4 (invariant I1): after every mutating engine operation — in
particular after `ipod_remove_track` — every playlist member is a non-NULL
reference to a track in the engine's current track collection (given the
pointer well-formedness the C runtime provides); and the pre-persist pass
of `ipod_write_db` drops exactly the stale member nodes (NULL pointers and
references to tracks no longer in the collection), leaves every valid
member, never fails because of them, and attempts the write regardless: its
return value depends only on the outcome of `itdb_write`. -/
theorem C4_stale_reference_safety :
    (∀ (db : Itdb) (op : EngineOp), WF db → I1 db →
      WF (applyOp db op) ∧ I1 (applyOp db op)) ∧
    (∀ (db : Itdb) (writeOk : Bool),
      ((ipod_write_db writeOk db).1.playlists =
        db.playlists.map (fun pl =>
          { pl with members := pl.members.filter (validMemberB (tidsOf db)),
                    isSpl := false })) ∧
      (∀ pl ∈ (ipod_write_db writeOk db).1.playlists, ∀ m ∈ pl.members,
        ¬ m = none ∧ ∃ t ∈ tidsOf db, m = some t) ∧
      ((ipod_write_db writeOk db).2 = if writeOk then 0 else -1)) := by
  constructor
  · intro db op hWF hI1
    cases op with
    | addTrack a => exact WF_I1_addTrack db a hWF hI1
    | removeTrack i => exact WF_I1_removeTrack db i hWF hI1
    | updateTrack i u => exact WF_I1_updateTrack db i u hWF hI1
    | trackSetPath i p => exact WF_I1_trackSetPath db i p hWF hI1
    | finalizeLastNoStat mp dest size => exact WF_I1_finalize mp db dest size hWF hI1
    | createPlaylist name => exact WF_I1_createPlaylist db name hWF hI1
    | deletePlaylist i => exact WF_I1_deletePlaylist db i hWF hI1
    | renamePlaylist i name => exact WF_I1_renamePlaylist db i name hWF hI1
    | playlistAddTrack p t => exact WF_I1_playlistAddTrack db p t hWF hI1
    | playlistRemoveTrack p t => exact WF_I1_playlistRemoveTrack db p t hWF hI1
  · intro db writeOk
    have hfst : (ipod_write_db writeOk db).1 = prepareForWrite db := by
      unfold ipod_write_db
      cases writeOk <;> rfl
    refine ⟨?_, ?_, ?_⟩
    · rw [hfst]
      rfl
    · rw [hfst]
      intro pl hpl m hm
      unfold prepareForWrite at hpl
      rw [List.mem_map] at hpl
      obtain ⟨pl0, hpl0, rfl⟩ := hpl
      have hm1 : m ∈ pl0.members.filter (validMemberB (tidsOf db)) := hm
      have hv : validMemberB (tidsOf db) m = true := List.of_mem_filter hm1
      cases m with
      | none => exact absurd hv (by simp [validMemberB])
      | some t =>
        have ht : t ∈ tidsOf db := by
          simpa [validMemberB] using hv
        exact ⟨by simp, t, ht, rfl⟩
    · unfold ipod_write_db
      cases writeOk <;> rfl

/-- Witness for C4: removing the only track from a two-playlist database
keeps I1, and the pre-persist pass on a database with a NULL and a dangling
member drops both without failing the write. -/
theorem C4_stale_reference_safety_witness :
    I1 (applyOp
      { tracks := [{ tid := 0, title := "t", artist := "a", album := "b", genre := "g",
                     filetype := "MPEG audio file", trackNr := 0, cdNr := 0, year := 0,
                     tracklen := 180000, bitrate := 128, samplerate := 44100, size := 9,
                     transferred := false, ipodPath := none, filetypeMarker := 0 }],
        playlists :=
          [{ name := "iPod", isMaster := true, isPodcast := false, isSpl := false,
             members := [some 0] },
           { name := "Mix", isMaster := false, isPodcast := false, isSpl := false,
             members := [some 0] }],
        nextTid := 1, lastAdded := some 0 }
      (EngineOp.removeTrack 0)) :=
  (C4_stale_reference_safety.1
    { tracks := [{ tid := 0, title := "t", artist := "a", album := "b", genre := "g",
                   filetype := "MPEG audio file", trackNr := 0, cdNr := 0, year := 0,
                   tracklen := 180000, bitrate := 128, samplerate := 44100, size := 9,
                   transferred := false, ipodPath := none, filetypeMarker := 0 }],
      playlists :=
        [{ name := "iPod", isMaster := true, isPodcast := false, isSpl := false,
           members := [some 0] },
         { name := "Mix", isMaster := false, isPodcast := false, isSpl := false,
           members := [some 0] }],
      nextTid := 1, lastAdded := some 0 }
    (EngineOp.removeTrack 0) (by unfold WF tidsOf; decide) (by unfold I1 tidsOf; decide)).2

end TunesReloaded
